import Mathlib

/-!
Verification development for the `my-code-base` repository.

The Python modules are shallowly embedded in Lean 4: numeric values are
modelled by rationals (exact real-number semantics of the floating-point
code), numpy arrays and pandas Series by lists or functions out of `Fin n`,
fallible functions by `Except`, and the Python object heap (needed for the
purity claims about in-place mutation of copies) by an explicit store.
-/

namespace MyCodeBase

/-- The Python exception kinds raised by the embedded functions. -/
inductive PyErr where
  | assertionError
  | linAlgError
  | ioError
  | valueError
  | typeError
  deriving DecidableEq, Repr

/-! ## core/utils.py -/

/-- Embedding of `order_of_magnitude` from `core/utils.py` restricted to its
list of nonzero entries: zeros are filtered out (`x = x[x != 0]`) and each
remaining entry `x` is mapped to `floor(log10 x)`.  For a positive rational
`x`, `Int.log 10 x` is exactly `⌊log₁₀ x⌋`.  (The all-zero input, on which
the Python function returns `None`, is handled by the callers below.) -/
def order_of_magnitude (x : List ℚ) : List ℤ :=
  (x.filter (· ≠ 0)).map (fun v => Int.log 10 v)

/-- Embedding of `np.rint`: round to the nearest integer, ties to even. -/
def rint (q : ℚ) : ℤ :=
  let f := ⌊q⌋
  let r := q - f
  if r < 1/2 then f
  else if 1/2 < r then f + 1
  else if f % 2 = 0 then f else f + 1

/-- Embedding of `np.nanmedian` on a list with no NaNs: sort, then take the
middle element (odd length) or the average of the two middle elements (even
length). -/
def nanmedian (l : List ℚ) : ℚ :=
  let s := l.insertionSort (· ≤ ·)
  let n := s.length
  if n % 2 = 1 then s.getD (n / 2) 0
  else (s.getD (n / 2 - 1) 0 + s.getD (n / 2) 0) / 2

/-! ## core/units.py

`pressure2atm` and `pressure2mbar` branch on
`np.nanmedian(np.rint(order_of_magnitude(p)))`; we name that quantity. -/

/-- The quantity `np.nanmedian(np.rint(order_of_magnitude(p)))` used by the
pressure-conversion branches. -/
def medianRoundedOom (p : List ℚ) : ℚ :=
  nanmedian ((order_of_magnitude p).map (fun z => ((rint (z : ℚ) : ℤ) : ℚ)))

/-- Embedding of `pressure2atm` from `core/units.py` on a pandas Series of
rationals.  The initial `p = copy(p)` and the in-place `/=` are modelled at
value level here (the heap-level copy semantics are modelled separately by
`pressure2atmSt`).  An all-zero input makes `order_of_magnitude` return
`None` in Python, so `np.rint(None)` raises a `TypeError`. -/
def pressure2atm (p : List ℚ) : Except PyErr (List ℚ) :=
  if p.all (· = 0) then .error .typeError else
  if 2 ≤ medianRoundedOom p ∧ medianRoundedOom p ≤ 3 then
    .ok (p.map (· / (4053/4)))
  else if 4 ≤ medianRoundedOom p ∧ medianRoundedOom p ≤ 5 then
    .ok (p.map (· / 101325))
  else if -1 ≤ medianRoundedOom p ∧ medianRoundedOom p ≤ 1 then
    .ok p
  else .error .ioError

/-- Embedding of `pressure2mbar` from `core/units.py` (same branch structure
as `pressure2atm`; hPa input is returned unchanged, Pa is divided by 100,
atm is multiplied by 1013.25). -/
def pressure2mbar (p : List ℚ) : Except PyErr (List ℚ) :=
  if p.all (· = 0) then .error .typeError else
  if 2 ≤ medianRoundedOom p ∧ medianRoundedOom p ≤ 3 then
    .ok p
  else if 4 ≤ medianRoundedOom p ∧ medianRoundedOom p ≤ 5 then
    .ok (p.map (· / 100))
  else if -1 ≤ medianRoundedOom p ∧ medianRoundedOom p ≤ 1 then
    .ok (p.map (· * (4053/4)))
  else .error .ioError

/-- Embedding of the scalar branch of `temperature2K` from `core/units.py`:
`if T < 200: T += 273.15`. -/
def temperature2K_scalar (T : ℚ) : ℚ :=
  if T < 200 then T + 5463/20 else T

/-- Embedding of the Series branch of `temperature2K`:
`T[T < 200] += 273.15` applied to a copy of the Series. -/
def temperature2K_series (T : List ℚ) : List ℚ :=
  T.map temperature2K_scalar

/-- Embedding of the scalar branch of `temperature2C` from `core/units.py`:
`elif T > 200: T -= 273.15`. -/
def temperature2C_scalar (T : ℚ) : ℚ :=
  if 200 < T then T - 5463/20 else T

/-- Embedding of the Series branch of `temperature2C`:
`T.loc[T > 200] -= 273.15` applied to a copy of the Series. -/
def temperature2C_series (T : List ℚ) : List ℚ :=
  T.map temperature2C_scalar

/-! ## Heap model for the purity claims

Each unit-conversion function starts with `p = copy(p)` and then mutates the
copy in place (`p /= c`, `T[T < 200] += 273.15`).  To express that the
caller's argument object is left unchanged, we model the Python heap as a
store mapping addresses to Series values; `copy` is an allocation of a fresh
address and the in-place updates write only to that fresh address. -/

/-- A store of Python Series objects: `mem` maps addresses to values and all
live addresses are below `next`. -/
structure Store where
  mem : ℕ → List ℚ
  next : ℕ

/-- Allocate a fresh address holding `v` (the heap effect of `copy(p)`). -/
def Store.alloc (s : Store) (v : List ℚ) : Store × ℕ :=
  (⟨fun a => if a = s.next then v else s.mem a, s.next + 1⟩, s.next)

/-- Overwrite the value at address `a` (the heap effect of an in-place
update such as `p /= c`). -/
def Store.write (s : Store) (a : ℕ) (v : List ℚ) : Store :=
  ⟨fun b => if b = a then v else s.mem b, s.next⟩

/-- The copy-then-mutate pattern shared by the four unit-conversion
functions: `x = copy(x)` allocates a fresh address holding the argument's
value, the conversion `f` is computed from that value, and the in-place
update writes the converted value to the fresh address only (or the
exception propagates). -/
def copyThenUpdate (s : Store) (p : ℕ) (f : List ℚ → Except PyErr (List ℚ)) :
    Except PyErr (Store × ℕ) :=
  let (s1, q) := s.alloc (s.mem p)
  match f (s1.mem q) with
  | .ok v => .ok (s1.write q v, q)
  | .error e => .error e

/-- Heap-level embedding of `pressure2atm`: `p = copy(p)` then the branch
and the in-place `/=` on the copy. -/
def pressure2atmSt (s : Store) (p : ℕ) : Except PyErr (Store × ℕ) :=
  copyThenUpdate s p pressure2atm

/-- Heap-level embedding of `pressure2mbar`. -/
def pressure2mbarSt (s : Store) (p : ℕ) : Except PyErr (Store × ℕ) :=
  copyThenUpdate s p pressure2mbar

/-- Heap-level embedding of `temperature2K` on a Series: `T = copy(T)` then
`T[T < 200] += 273.15` on the copy.  It never raises. -/
def temperature2KSt (s : Store) (p : ℕ) : Except PyErr (Store × ℕ) :=
  copyThenUpdate s p (fun l => .ok (temperature2K_series l))

/-- Heap-level embedding of `temperature2C` on a Series: `T = copy(T)` then
`T.loc[T > 200] -= 273.15` on the copy.  It never raises. -/
def temperature2CSt (s : Store) (p : ℕ) : Except PyErr (Store × ℕ) :=
  copyThenUpdate s p (fun l => .ok (temperature2C_series l))

/-! ## stats/timeseries.py -/

/-- Leap-year rule of the standard (proleptic Gregorian) calendar used by
the pandas/xarray datetime index that `ds.time.dt.days_in_month` reads. -/
def isLeapYear (y : ℤ) : Bool :=
  (y % 4 = 0 ∧ y % 100 ≠ 0) ∨ y % 400 = 0

/-- Days in each calendar month (month `0` is January). -/
def daysInMonth (y : ℤ) (m : Fin 12) : ℕ :=
  ![31, if isLeapYear y then 29 else 28, 31, 30, 31, 30, 31, 31, 30, 31, 30, 31] m

/-- A monthly time axis: each time step carries its calendar year and its
calendar month.  This models the `time` coordinate of the input to
`weighted_annual_mean` at monthly frequency. -/
def TimeAxis (n : ℕ) := Fin n → ℤ × Fin 12

/-- The time steps belonging to calendar year `y` (the groups of
`groupby("time.year")`). -/
def yearGroup {n : ℕ} (time : TimeAxis n) (y : ℤ) : Finset (Fin n) :=
  Finset.univ.filter (fun s => (time s).1 = y)

/-- Embedding of the weights of `weighted_annual_mean`:
`month_length.groupby("time.year") / month_length.groupby("time.year").sum()`,
i.e. each month's day count divided by the total day count of its year. -/
def annualWeight {n : ℕ} (time : TimeAxis n) (t : Fin n) : ℚ :=
  (daysInMonth (time t).1 (time t).2 : ℚ) /
    ∑ s ∈ yearGroup time (time t).1, (daysInMonth (time s).1 (time s).2 : ℚ)

/-- Embedding of `xarrayutils.linear_trend` composed with the
`trend = res.intercept + time_index * res.slope` line of
`xr_seasonal_decompose`: ordinary least squares of the series against the
index `0, 1, ..., n-1`, returning `(slope, intercept)`. -/
def linearTrendCoeffs (n : ℕ) (da : Fin n → ℚ) : ℚ × ℚ :=
  let N : ℚ := n
  let sx : ℚ := ∑ t : Fin n, (t.val : ℚ)
  let sy : ℚ := ∑ t : Fin n, da t
  let sxx : ℚ := ∑ t : Fin n, (t.val : ℚ) ^ 2
  let sxy : ℚ := ∑ t : Fin n, (t.val : ℚ) * da t
  let slope := (N * sxy - sx * sy) / (N * sxx - sx ^ 2)
  let intercept := (sy - slope * sx) / N
  (slope, intercept)

/-- The time steps whose calendar month is `m` (the groups of
`groupby("time.month")`). -/
def monthGroup {n : ℕ} (month : Fin n → Fin 12) (m : Fin 12) : Finset (Fin n) :=
  Finset.univ.filter (fun t => month t = m)

/-- Per-calendar-month mean of a series (the grouped mean
`detrended.groupby("time.month").mean()`). -/
def monthlyMean {n : ℕ} (f : Fin n → ℚ) (month : Fin n → Fin 12) (m : Fin 12) : ℚ :=
  (∑ t ∈ monthGroup month m, f t) / ((monthGroup month m).card : ℚ)

/-- The dataset returned by `xr_seasonal_decompose`: one data variable per
decomposition component.  `seasonality` is indexed by calendar month, the
other components by time step. -/
structure SeasonalDecomp (n : ℕ) where
  trend : Fin n → ℚ
  detrended : Fin n → ℚ
  seasonality : Fin 12 → ℚ
  residuals : Fin n → ℚ
  deseasonalized : Fin n → ℚ

/-- Embedding of `xr_seasonal_decompose` from `stats/timeseries.py`: the
trend is the fitted line of a linear regression on the time index, the
series is detrended, the seasonality is the per-calendar-month mean of the
detrended series, the residuals subtract the seasonality of each step's
month, and `deseasonalized = residuals + trend`. -/
def xr_seasonal_decompose {n : ℕ} (da : Fin n → ℚ) (month : Fin n → Fin 12) :
    SeasonalDecomp n :=
  let c := linearTrendCoeffs n da
  let trend : Fin n → ℚ := fun t => c.2 + (t.val : ℚ) * c.1
  let detrended : Fin n → ℚ := fun t => da t - trend t
  let seasonality : Fin 12 → ℚ := fun m => monthlyMean detrended month m
  let residuals : Fin n → ℚ := fun t => detrended t - seasonality (month t)
  let deseasonalized : Fin n → ℚ := fun t => residuals t + trend t
  ⟨trend, detrended, seasonality, residuals, deseasonalized⟩

/-- Embedding of the trend column of `pd_seasonal_decompose` at the default
`freq=12`: `df["raw"].rolling(window=13, center=True).mean()`.  Position `i`
averages the window `[i-6, i+6]` when that window lies inside the series and
is NaN (here `none`) otherwise. -/
def pd_seasonal_decompose_trend (x : List ℚ) : List (Option ℚ) :=
  (List.range x.length).map fun i =>
    if 6 ≤ i ∧ i + 6 < x.length then
      some (((x.drop (i - 6)).take 13).sum / 13)
    else none

/-- Modelled from the spec: the fitted values of a linear regression of the
series on its time index `0, 1, ..., n-1` (what the spec sentence "trend via
linear regression" asserts the trend column of `pd_seasonal_decompose` to
be). -/
def linRegFitted (x : List ℚ) : List ℚ :=
  let c := linearTrendCoeffs x.length (fun t => x.getD t.val 0)
  (List.range x.length).map (fun i => c.2 + c.1 * (i : ℚ))

/-! ## linalg/__init__.py -/

/-- Embedding of `np.linalg.inv` on an exact-arithmetic square matrix:
the inverse `det⁻¹ • adjugate`, which is the real-number semantics of the
floating-point routine.  (On a singular matrix `np.linalg.inv` raises; that
failure path is modelled in `invDF` below and is irrelevant here because the
claims about `inv` assume invertibility.) -/
def npInv {n : ℕ} (M : Matrix (Fin n) (Fin n) ℚ) : Matrix (Fin n) (Fin n) ℚ :=
  (M.det)⁻¹ • M.adjugate

/-- A pandas DataFrame with `r` rows and `c` columns: row labels, column
labels, and the numeric values. -/
structure DFrame (r c : ℕ) where
  index : List ℕ
  cols : List ℕ
  values : Matrix (Fin r) (Fin c) ℚ

/-- View the values of a DataFrame whose two shape dimensions are equal as
a square matrix. -/
def castSquare {r c : ℕ} (h : r = c) (V : Matrix (Fin r) (Fin c) ℚ) :
    Matrix (Fin r) (Fin r) ℚ :=
  fun i j => V i (Fin.cast h j)

/-- Embedding of the `pandas.DataFrame` overload of `inv` from
`linalg/__init__.py`: `assert np.equal(*df.shape)` raises an
`AssertionError` on a non-square frame; then `np.linalg.inv` raises a
`LinAlgError` on a singular matrix; otherwise the inverted values are
wrapped in a DataFrame carrying the input's `index` and `columns`. -/
def invDF {r c : ℕ} (df : DFrame r c) : Except PyErr (DFrame r c) :=
  if h : r = c then
    if (castSquare h df.values).det = 0 then .error .linAlgError
    else .ok ⟨df.index, df.cols,
      fun i j => npInv (castSquare h df.values) i (Fin.cast h.symm j)⟩
  else .error .assertionError

/-- Embedding of `empirical_covariance` from `linalg/__init__.py`: rows of
`x` are the variables, columns the observations; `X = x.T`, `μ` the
column-wise mean of `X`, `D = X - μ`, and the result is `Dᵀ·D / dof` with
`dof = m` (`bias=True`) or `m - 1` (`bias=False`, Python integer
subtraction). -/
def empirical_covariance {n m : ℕ} (x : Matrix (Fin n) (Fin m) ℚ) (bias : Bool) :
    Matrix (Fin n) (Fin n) ℚ :=
  let X : Matrix (Fin m) (Fin n) ℚ := x.transpose
  let μ : Fin n → ℚ := fun i => (∑ k : Fin m, X k i) / (m : ℚ)
  let D : Matrix (Fin m) (Fin n) ℚ := fun k i => X k i - μ i
  let dof : ℚ := if bias then (m : ℚ) else (m : ℚ) - 1
  fun i j => (∑ k : Fin m, D k i * D k j) / dof

/-- Modelled from the spec: the reference sample covariance matrix with
entries `Cov[i,j] = Σ_k (x[i,k] - mean_i)·(x[j,k] - mean_j) / (m - 1)`
(divisor `m` when `bias` is set). -/
def covariance_ref {n m : ℕ} (x : Matrix (Fin n) (Fin m) ℚ) (bias : Bool) :
    Matrix (Fin n) (Fin n) ℚ :=
  fun i j =>
    (∑ k : Fin m,
      (x i k - (∑ l : Fin m, x i l) / (m : ℚ)) *
      (x j k - (∑ l : Fin m, x j l) / (m : ℚ))) /
    (if bias then (m : ℚ) else (m : ℚ) - 1)

/-! ## esd/ensemble.py

Python strings are modelled as lists of characters so that the dot-split
is a structurally recursive (hence kernel-evaluable) function. -/

/-- A Python string, as its list of characters. -/
abbrev PyStr := List Char

/-- Embedding of `str.split(".")`: split at every dot, keeping empty
components; the empty string yields one empty component. -/
def splitOnDot : PyStr → List PyStr
  | [] => [[]]
  | c :: rest =>
    match splitOnDot rest with
    | [] => [[c]]
    | h :: t => if c = '.' then [] :: h :: t else (c :: h) :: t

/-- The mapping table built by `_build_member_mapping_table`: the row index
(the member strings), the column labels (the key-template elements), and the
rows of split components.  Rows shorter than the widest split are padded
with `None` by `pandas.Series.str.split(expand=True)`. -/
structure MemberTable where
  index : List PyStr
  columns : List PyStr
  rows : List (List (Option PyStr))

/-- Embedding of `_build_member_mapping_table` from `esd/ensemble.py`:
`pd.Series(member_values).str.split(".", expand=True)` splits every member
string on dots into a rectangular table (short rows padded with `None`),
the table is indexed by the member strings, and the columns are renamed to
`member_id_elements` — pandas raises a `ValueError` when the number of
template elements differs from the table width. -/
def build_member_mapping_table (member_values member_id_elements : List PyStr) :
    Except PyErr MemberTable :=
  let splits := member_values.map splitOnDot
  let W := (splits.map List.length).foldr max 0
  let rows := splits.map (fun r => r.map some ++ List.replicate (W - r.length) none)
  if member_id_elements.length = W then
    .ok ⟨member_values, member_id_elements, rows⟩
  else .error .valueError

/-- Embedding of `EnsembleAccessor._verify_member_keys`: collect the number
of dot-separated components of every member string and raise a `ValueError`
unless that collection has exactly one distinct value. -/
def verify_member_keys (member_values : List PyStr) : Except PyErr Unit :=
  if ((member_values.map (fun m => (splitOnDot m).length)).dedup).length = 1 then
    .ok ()
  else .error .valueError

/-! ## Concrete instances used by witnesses and counterexamples -/

/-- A two-month time axis (January and February 2000) for the weight
witness. -/
def timeAxis2 : TimeAxis 2 :=
  ![((2000 : ℤ), (0 : Fin 12)), ((2000 : ℤ), (1 : Fin 12))]

/-- The example matrix from the `empirical_covariance` docstring: three
variables observed twice. -/
def covExample : Matrix (Fin 3) (Fin 2) ℚ :=
  !![92, 80; 60, 30; 100, 70]

/-- Thirteen zeros followed by a one: a series on which the centered
rolling-mean trend of `pd_seasonal_decompose` differs from a linear
regression fit. -/
def rollingCounterexample : List ℚ :=
  List.replicate 13 0 ++ [1]

/-- A store holding the one-element Series `[1]` (a pressure already in
atm) at address 0. -/
def store1 : Store :=
  ⟨fun a => if a = 0 then [1] else [], 1⟩

/-- The square all-zero one-by-one DataFrame: square, but singular. -/
def zeroDF : DFrame 1 1 :=
  ⟨[0], [0], !![0]⟩

/-- The store and result address produced by running `temperature2K` on the
Series at address 0 of `store1` (used to state the purity witness). -/
def store1K : Store :=
  ((store1.alloc (store1.mem 0)).1).write 1
    (temperature2K_series ((store1.alloc (store1.mem 0)).1.mem 1))

/-! ## Helper lemmas -/

/-- Every calendar month has a positive number of days. -/
theorem daysInMonth_pos (y : ℤ) (m : Fin 12) : 0 < daysInMonth y m := by
  unfold daysInMonth
  fin_cases m <;> split <;> decide

/-- The exact-arithmetic `np.linalg.inv` agrees with the Mathlib matrix
inverse. -/
theorem npInv_eq_inv {k : ℕ} (M : Matrix (Fin k) (Fin k) ℚ) : npInv M = M⁻¹ := by
  rw [npInv, Matrix.inv_def, Ring.inverse_eq_inv]

/-- What a successful copy-then-mutate run guarantees: the result address is
the fresh one, every other address is untouched, and the fresh address holds
the conversion of the argument's value. -/
theorem copyThenUpdate_ok (s : Store) (p : ℕ)
    (f : List ℚ → Except PyErr (List ℚ)) (s2 : Store) (q : ℕ)
    (h : copyThenUpdate s p f = .ok (s2, q)) :
    q = s.next ∧ (∀ a, a ≠ s.next → s2.mem a = s.mem a) ∧
      f (s.mem p) = .ok (s2.mem q) := by
  unfold copyThenUpdate at h
  simp only [Store.alloc, if_true] at h
  cases hf : f (s.mem p) with
  | ok v =>
    rw [hf] at h
    cases h
    refine ⟨rfl, ?_, ?_⟩
    · intro a ha
      simp [Store.write, ha]
    · simp [Store.write, hf]
  | error e =>
    rw [hf] at h
    cases h

/-- Folding `max` over a nonempty list of copies of `k` yields `k`. -/
theorem foldr_max_const (l : List ℕ) (k : ℕ) (hne : l ≠ [])
    (h : ∀ x ∈ l, x = k) : l.foldr max 0 = k := by
  induction l with
  | nil => exact absurd rfl hne
  | cons a t ih =>
    cases t with
    | nil => simp [h a (by simp)]
    | cons b u =>
      rw [List.foldr_cons, ih (by simp) (fun x hx => h x (List.mem_cons_of_mem a hx)),
        h a (by simp)]
      exact max_self k

/-- Indexing with a default into a mapped list, at a valid index. -/
theorem list_getD_map {α β : Type} (f : α → β) (l : List α) (i : ℕ)
    (hi : i < l.length) (d : β) (d0 : α) :
    (l.map f).getD i d = f (l.getD i d0) := by
  rw [List.getD_eq_getElem _ _ (by simpa using hi), List.getElem_map,
    List.getD_eq_getElem _ _ hi]

/-- The sum of the first `k` entries of a list, as a `Finset.range` sum. -/
theorem list_sum_take (l : List ℚ) (k : ℕ) (hk : k ≤ l.length) :
    (l.take k).sum = ∑ j ∈ Finset.range k, l.getD j 0 := by
  induction k with
  | zero => simp
  | succ k ih =>
    have hklt : k < l.length := hk
    rw [List.sum_take_succ _ _ hklt, ih hklt.le, Finset.sum_range_succ,
      List.getD_eq_getElem _ _ hklt]

/-! ## Claim theorems -/

/-- C1: at every time step `t`, the dataset returned by
`xr_seasonal_decompose` satisfies `detrended t = raw t - trend t`, the
seasonality is the per-calendar-month mean of the detrended series,
`residuals t = detrended t - seasonality (month t)`,
`deseasonalized t = raw t - seasonality (month t)`, and hence
`raw t = trend t + seasonality (month t) + residuals t`. -/
theorem xr_seasonal_decompose_identity {n : ℕ} (da : Fin n → ℚ)
    (month : Fin n → Fin 12) (t : Fin n) :
    (xr_seasonal_decompose da month).detrended t =
      da t - (xr_seasonal_decompose da month).trend t ∧
    (∀ m : Fin 12, (xr_seasonal_decompose da month).seasonality m =
      monthlyMean (xr_seasonal_decompose da month).detrended month m) ∧
    (xr_seasonal_decompose da month).residuals t =
      (xr_seasonal_decompose da month).detrended t -
        (xr_seasonal_decompose da month).seasonality (month t) ∧
    (xr_seasonal_decompose da month).deseasonalized t =
      da t - (xr_seasonal_decompose da month).seasonality (month t) ∧
    da t = (xr_seasonal_decompose da month).trend t +
      (xr_seasonal_decompose da month).seasonality (month t) +
      (xr_seasonal_decompose da month).residuals t := by
  refine ⟨rfl, fun m => rfl, rfl, ?_, ?_⟩ <;> · simp only [xr_seasonal_decompose]; ring

/-- C2 counterexample: on thirteen zeros followed by a one, the trend column
of `pd_seasonal_decompose` (a centered rolling mean) differs from the fitted
values of a linear regression on the time index, so the claim fails as
stated. -/
theorem pd_trend_not_linear_fit :
    pd_seasonal_decompose_trend rollingCounterexample ≠
      (linRegFitted rollingCounterexample).map some := by
  decide

/-- C2 (amended): the xarray decomposition computes its trend as the fitted
line of a linear regression on the time index, while `pd_seasonal_decompose`
computes its trend column as a centered rolling mean of window `freq+1 = 13`:
at every interior position `i` the trend is the average of the thirteen
values at positions `i-6 … i+6`, and positions nearer the boundary are NaN. -/
theorem seasonal_trend_components {n : ℕ} (da : Fin n → ℚ)
    (month : Fin n → Fin 12) (t : Fin n) (x : List ℚ) (i : ℕ)
    (h1 : 6 ≤ i) (h2 : i + 6 < x.length) :
    (xr_seasonal_decompose da month).trend t =
      (linearTrendCoeffs n da).2 + (t.val : ℚ) * (linearTrendCoeffs n da).1 ∧
    (pd_seasonal_decompose_trend x).getD i none =
      some ((∑ j ∈ Finset.Icc (i - 6) (i + 6), x.getD j 0) / 13) := by
  refine ⟨rfl, ?_⟩
  have hi : i < x.length := by omega
  unfold pd_seasonal_decompose_trend
  rw [List.getD_eq_getElem _ _ (by simpa using hi)]
  rw [List.getElem_map, List.getElem_range, if_pos ⟨h1, h2⟩]
  congr 1
  rw [list_sum_take _ 13 (by simp; omega)]
  have hterm : ∀ j ∈ Finset.range 13, (x.drop (i - 6)).getD j 0 = x.getD (i - 6 + j) 0 := by
    intro j hj
    have hj13 : j < 13 := Finset.mem_range.mp hj
    have hlt : i - 6 + j < x.length := by omega
    rw [List.getD_eq_getElem _ _ (by simp; omega), List.getElem_drop,
      List.getD_eq_getElem _ _ hlt]
  rw [Finset.sum_congr rfl hterm, ← Nat.Ico_succ_right, Finset.sum_Ico_eq_sum_range]
  have h13 : i + 6 + 1 - (i - 6) = 13 := by omega
  rw [h13]

/-- C2 witness: the hypotheses hold at interior position 6 of the
fourteen-element counterexample series (and on a one-point data array for
the xarray half). -/
theorem seasonal_trend_components_witness :
    (6 ≤ 6 ∧ 6 + 6 < rollingCounterexample.length) ∧
    (pd_seasonal_decompose_trend rollingCounterexample).getD 6 none =
      some ((∑ j ∈ Finset.Icc (6 - 6) (6 + 6), rollingCounterexample.getD j 0) / 13) :=
  ⟨⟨by norm_num, by decide⟩,
    (seasonal_trend_components (fun _ : Fin 1 => 0) (fun _ => 0) 0
      rollingCounterexample 6 (by norm_num) (by decide)).2⟩

/-- C3: within every calendar year that occurs on the time axis, the monthly
weights of `weighted_annual_mean` (each month's day count divided by the
total day count of its year) sum to exactly 1, so the guarded
`AssertionError` is unreachable in exact arithmetic. -/
theorem weighted_annual_mean_weights_sum_to_one {n : ℕ} (time : TimeAxis n)
    (y : ℤ) (h : ∃ t, (time t).1 = y) :
    ∑ t ∈ yearGroup time y, annualWeight time t = 1 := by
  obtain ⟨t0, ht0⟩ := h
  set S := ∑ s ∈ yearGroup time y, (daysInMonth (time s).1 (time s).2 : ℚ) with hS
  have hpos : 0 < S := by
    refine Finset.sum_pos (fun s _ => by exact_mod_cast daysInMonth_pos _ _) ?_
    exact ⟨t0, by simp [yearGroup, ht0]⟩
  have hw : ∀ t ∈ yearGroup time y,
      annualWeight time t = (daysInMonth (time t).1 (time t).2 : ℚ) / S := by
    intro t ht
    have hy : (time t).1 = y := by simpa [yearGroup] using ht
    simp [annualWeight, hy, hS]
  rw [Finset.sum_congr rfl hw, ← Finset.sum_div, ← hS, div_self (ne_of_gt hpos)]

/-- C3 witness: on the two-month axis of the year 2000 the weights of that
year sum to 1. -/
theorem weighted_annual_mean_weights_sum_to_one_witness :
    ∑ t ∈ yearGroup timeAxis2 2000, annualWeight timeAxis2 t = 1 :=
  weighted_annual_mean_weights_sum_to_one timeAxis2 2000 ⟨0, rfl⟩

/-- C4: for an input with `m ≥ 2` observation columns,
`empirical_covariance` equals the reference sample covariance matrix
(divisor `m - 1`, or `m` when `bias` is set). -/
theorem empirical_covariance_matches_ref {n m : ℕ}
    (x : Matrix (Fin n) (Fin m) ℚ) (bias : Bool) (h : 2 ≤ m) :
    empirical_covariance x bias = covariance_ref x bias := by
  funext i j
  rfl

/-- C4 witness: the docstring example (three variables, two observations)
satisfies the hypothesis, and the code and reference covariance agree on
it. -/
theorem empirical_covariance_matches_ref_witness :
    2 ≤ 2 ∧ empirical_covariance covExample false = covariance_ref covExample false :=
  ⟨by norm_num, empirical_covariance_matches_ref covExample false (by norm_num)⟩

/-- C10: `temperature2K` is idempotent on scalars at least `-73.15` (a value
once converted to Kelvin is at least 200 and is not converted again). -/
theorem temperature2K_idempotent (T : ℚ) (h : -1463/20 ≤ T) :
    temperature2K_scalar (temperature2K_scalar T) = temperature2K_scalar T := by
  simp only [temperature2K_scalar]
  split_ifs <;> first | rfl | linarith

/-- C10 witness: at `T = 10` the hypothesis holds and double conversion
equals single conversion. -/
theorem temperature2K_idempotent_witness :
    -1463/20 ≤ (10 : ℚ) ∧
      temperature2K_scalar (temperature2K_scalar 10) = temperature2K_scalar 10 :=
  ⟨by norm_num, temperature2K_idempotent 10 (by norm_num)⟩

/-- C5: for every invertible square matrix, `inv(M) * M` is the identity and
`inv(inv(M)) = M`; for a square invertible DataFrame the result is a
DataFrame carrying the input's index and columns, holding the inverted
values. -/
theorem inv_roundtrip {k : ℕ} (M : Matrix (Fin k) (Fin k) ℚ) (hM : M.det ≠ 0)
    {r : ℕ} (df : DFrame r r) (hdf : df.values.det ≠ 0) :
    npInv M * M = 1 ∧ npInv (npInv M) = M ∧
    ∃ out, invDF df = .ok out ∧ out.index = df.index ∧ out.cols = df.cols ∧
      out.values = npInv df.values := by
  have hU : IsUnit M.det := isUnit_iff_ne_zero.mpr hM
  refine ⟨?_, ?_, ?_⟩
  · rw [npInv_eq_inv]
    exact Matrix.nonsing_inv_mul M hU
  · rw [npInv_eq_inv, npInv_eq_inv]
    exact Matrix.nonsing_inv_nonsing_inv M hU
  · refine ⟨⟨df.index, df.cols, npInv df.values⟩, ?_, rfl, rfl, rfl⟩
    unfold invDF
    split
    · split
      · next hdet => exact absurd hdet hdf
      · rfl
    · next hnot => exact absurd rfl hnot

/-- C5 witness: the 1×1 matrix `[[2]]` and the 1×1 DataFrame holding `[[3]]`
are invertible, and the round-trip theorem applies to them. -/
theorem inv_roundtrip_witness :
    npInv (!![2] : Matrix (Fin 1) (Fin 1) ℚ) * !![2] = 1 ∧
    npInv (npInv (!![2] : Matrix (Fin 1) (Fin 1) ℚ)) = !![2] ∧
    ∃ out, invDF (⟨[7], [9], !![3]⟩ : DFrame 1 1) = .ok out ∧
      out.index = [7] ∧ out.cols = [9] ∧ out.values = npInv !![3] :=
  inv_roundtrip !![2] (by norm_num [Matrix.det_fin_one])
    ⟨[7], [9], !![3]⟩ (by norm_num [Matrix.det_fin_one])

/-- C7 counterexample: the all-zero 1×1 DataFrame is square, yet `inv`
raises (`np.linalg.inv` fails on a singular matrix), so raising is not
equivalent to non-squareness. -/
theorem invDF_raises_on_singular_square :
    invDF zeroDF = .error .linAlgError := by
  unfold invDF
  rw [dif_pos rfl, if_pos]
  simp [Matrix.det_fin_one, castSquare, zeroDF]

/-- C7 (amended): `inv` on a DataFrame raises an `AssertionError` exactly
when the frame is not square; a square frame additionally raises a
`LinAlgError` exactly when its matrix is singular, and for a square
invertible frame no exception is raised. -/
theorem invDF_error_characterization :
    (∀ (r c : ℕ) (df : DFrame r c), invDF df = .error .assertionError ↔ r ≠ c) ∧
    (∀ (k : ℕ) (df : DFrame k k),
      (invDF df = .error .linAlgError ↔ df.values.det = 0) ∧
      (df.values.det ≠ 0 →
        ∃ out, invDF df = .ok out ∧ out.index = df.index ∧ out.cols = df.cols)) := by
  constructor
  · intro r c df
    unfold invDF
    split
    · next h =>
      subst h
      split <;> simp
    · next h => simp [h]
  · intro k df
    constructor
    · unfold invDF
      rw [dif_pos rfl]
      split
      · next hdet => simpa using hdet
      · next hdet => simpa using hdet
    · intro hdet
      refine ⟨⟨df.index, df.cols, npInv df.values⟩, ?_, rfl, rfl⟩
      unfold invDF
      split
      · split
        · next hz => exact absurd hz hdet
        · rfl
      · next hnot => exact absurd rfl hnot

/-- C7 amended-claim witness: the 1×1 DataFrame holding `[[3]]` is square
and invertible, and `inv` succeeds on it with the input's labels. -/
theorem invDF_error_characterization_witness :
    ∃ out, invDF (⟨[7], [9], !![3]⟩ : DFrame 1 1) = .ok out ∧
      out.index = [7] ∧ out.cols = [9] :=
  (invDF_error_characterization.2 1 ⟨[7], [9], !![3]⟩).2
    (by norm_num [Matrix.det_fin_one])

/-- C9: each unit-conversion function leaves the caller's argument object
unchanged: on success it returns a fresh address, every address other than
the fresh one (in particular the argument's) still holds its old value, and
the fresh address holds the converted value. -/
theorem unit_conversions_pure (s : Store) (p : ℕ) (hp : p < s.next) :
    (∀ s2 q, pressure2atmSt s p = .ok (s2, q) →
      q ≠ p ∧ (∀ a, a ≠ q → s2.mem a = s.mem a) ∧
      pressure2atm (s.mem p) = .ok (s2.mem q)) ∧
    (∀ s2 q, pressure2mbarSt s p = .ok (s2, q) →
      q ≠ p ∧ (∀ a, a ≠ q → s2.mem a = s.mem a) ∧
      pressure2mbar (s.mem p) = .ok (s2.mem q)) ∧
    (∀ s2 q, temperature2KSt s p = .ok (s2, q) →
      q ≠ p ∧ (∀ a, a ≠ q → s2.mem a = s.mem a) ∧
      s2.mem q = temperature2K_series (s.mem p)) ∧
    (∀ s2 q, temperature2CSt s p = .ok (s2, q) →
      q ≠ p ∧ (∀ a, a ≠ q → s2.mem a = s.mem a) ∧
      s2.mem q = temperature2C_series (s.mem p)) := by
  refine ⟨?_, ?_, ?_, ?_⟩ <;> intro s2 q h
  · obtain ⟨hq, hpre, hval⟩ := copyThenUpdate_ok _ _ _ _ _ h
    exact ⟨by omega, by rwa [hq], hval⟩
  · obtain ⟨hq, hpre, hval⟩ := copyThenUpdate_ok _ _ _ _ _ h
    exact ⟨by omega, by rwa [hq], hval⟩
  · obtain ⟨hq, hpre, hval⟩ := copyThenUpdate_ok _ _ _ _ _ h
    exact ⟨by omega, by rwa [hq], by injection hval with hv; exact hv.symm⟩
  · obtain ⟨hq, hpre, hval⟩ := copyThenUpdate_ok _ _ _ _ _ h
    exact ⟨by omega, by rwa [hq], by injection hval with hv; exact hv.symm⟩

/-- C9 witness: running `temperature2K` on the Series at address 0 of a
concrete store leaves address 0 unchanged. -/
theorem unit_conversions_pure_witness :
    (0 : ℕ) < store1.next ∧ temperature2KSt store1 0 = .ok (store1K, 1) ∧
      store1K.mem 0 = store1.mem 0 :=
  ⟨by decide, rfl,
    ((unit_conversions_pure store1 0 (by decide)).2.2.1 store1K 1 rfl).2.1 0
      (by decide)⟩

/-- C6: on a nonempty Series of positive pressures, `pressure2atm` raises
exactly when the median rounded order of magnitude lies outside the ranges
`[2,3]` (hPa), `[4,5]` (Pa) and `[-1,1]` (atm); otherwise it divides by
`1013.25` (hPa), divides by `101325` (Pa), or returns the input unchanged
(atm). -/
theorem pressure2atm_branches (p : List ℚ) (hne : p ≠ [])
    (hpos : ∀ x ∈ p, 0 < x) :
    ((∃ e, pressure2atm p = .error e) ↔
      ¬((2 ≤ medianRoundedOom p ∧ medianRoundedOom p ≤ 3) ∨
        (4 ≤ medianRoundedOom p ∧ medianRoundedOom p ≤ 5) ∨
        (-1 ≤ medianRoundedOom p ∧ medianRoundedOom p ≤ 1))) ∧
    ((2 ≤ medianRoundedOom p ∧ medianRoundedOom p ≤ 3) →
      pressure2atm p = .ok (p.map (· / (4053/4)))) ∧
    ((4 ≤ medianRoundedOom p ∧ medianRoundedOom p ≤ 5) →
      pressure2atm p = .ok (p.map (· / 101325))) ∧
    ((-1 ≤ medianRoundedOom p ∧ medianRoundedOom p ≤ 1) →
      pressure2atm p = .ok p) := by
  obtain ⟨x0, hx0⟩ := List.exists_mem_of_ne_nil p hne
  have hz : ¬(p.all (fun x => decide (x = 0)) = true) := by
    simp only [List.all_eq_true, decide_eq_true_eq]
    push_neg
    exact ⟨x0, hx0, ne_of_gt (hpos x0 hx0)⟩
  unfold pressure2atm
  rw [if_neg hz]
  split_ifs with h1 h2 h3
  · refine ⟨by simp [h1], fun _ => rfl, ?_, ?_⟩
    · rintro ⟨c4, -⟩
      exact absurd c4 (by obtain ⟨-, c3⟩ := h1; linarith)
    · rintro ⟨-, c1⟩
      exact absurd c1 (by obtain ⟨c2, -⟩ := h1; linarith)
  · refine ⟨by simp [h2], fun hc => absurd hc h1, fun _ => rfl, ?_⟩
    rintro ⟨-, c1⟩
    exact absurd c1 (by obtain ⟨c4, -⟩ := h2; linarith)
  · exact ⟨by simp [h3], fun hc => absurd hc h1, fun hc => absurd hc h2, fun _ => rfl⟩
  · refine ⟨⟨fun _ => ?_, fun _ => ⟨.ioError, rfl⟩⟩, fun hc => absurd hc h1,
      fun hc => absurd hc h2, fun hc => absurd hc h3⟩
    rintro (hA | hB | hC)
    exacts [h1 hA, h2 hB, h3 hC]

/-- C6 witness: the median rounded order of magnitude of the one-element
Series `[1]` is 0, so the Series is already in atm and is returned
unchanged. -/
theorem pressure2atm_branches_witness :
    pressure2atm [1] = .ok [1] := by
  have hlog : Int.log 10 (1 : ℚ) = 0 := Int.log_one_right 10
  have hm : medianRoundedOom [1] = 0 := by
    unfold medianRoundedOom order_of_magnitude nanmedian rint
    norm_num [hlog]
  exact (pressure2atm_branches [1] (by decide) (by decide)).2.2.2
    ⟨by rw [hm]; norm_num, by rw [hm]; norm_num⟩

/-- C8: for member strings that all split into `k` dot-separated components
and a template with `k` elements, the mapping table is indexed by the member
strings, its columns are the template elements, and the entry of row `i` at
column `j` is the `j`-th component of the `i`-th member string; moreover
`_verify_member_keys` raises a `ValueError` whenever two member strings have
different numbers of components. -/
theorem member_mapping_table_correct (ms elems : List PyStr) (k : ℕ)
    (hne : ms ≠ []) (hk : ∀ m ∈ ms, (splitOnDot m).length = k)
    (he : elems.length = k) :
    (∃ t, build_member_mapping_table ms elems = .ok t ∧
      t.index = ms ∧ t.columns = elems ∧
      ∀ i j, i < ms.length → j < k →
        (t.rows.getD i []).getD j none =
          some ((splitOnDot (ms.getD i [])).getD j [])) ∧
    (∀ (vs : List PyStr) (a b : PyStr), a ∈ vs → b ∈ vs →
      (splitOnDot a).length ≠ (splitOnDot b).length →
      verify_member_keys vs = .error .valueError) := by
  constructor
  · have hW : ((ms.map splitOnDot).map List.length).foldr max 0 = k := by
      refine foldr_max_const _ k ?_ ?_
      · simp [hne]
      · intro x hx
        simp only [List.map_map, List.mem_map] at hx
        obtain ⟨m, hm, rfl⟩ := hx
        exact hk m hm
    unfold build_member_mapping_table
    rw [if_pos (he.trans hW.symm)]
    refine ⟨_, rfl, rfl, rfl, ?_⟩
    intro i j hi hj
    have hilen : i < (ms.map splitOnDot).length := by simpa using hi
    have higetD : (ms.map splitOnDot).getD i [] = splitOnDot (ms.getD i []) :=
      list_getD_map _ _ _ hi _ _
    have hklen : (splitOnDot (ms.getD i [])).length = k := by
      refine hk _ ?_
      rw [List.getD_eq_getElem _ _ hi]
      exact List.getElem_mem _
    rw [list_getD_map _ _ _ hilen _ ([] : List PyStr), higetD, hklen, hW,
      Nat.sub_self, List.replicate_zero, List.append_nil]
    have hjlen : j < (splitOnDot (ms.getD i [])).length := by
      rw [hklen]
      exact hj
    exact list_getD_map some _ _ hjlen _ _
  · intro vs a b ha hb hab
    unfold verify_member_keys
    rw [if_neg]
    intro hlen
    obtain ⟨x, hx⟩ := List.length_eq_one.mp hlen
    have hma : (splitOnDot a).length ∈
        (vs.map fun m => (splitOnDot m).length).dedup :=
      List.mem_dedup.mpr (List.mem_map_of_mem _ ha)
    have hmb : (splitOnDot b).length ∈
        (vs.map fun m => (splitOnDot m).length).dedup :=
      List.mem_dedup.mpr (List.mem_map_of_mem _ hb)
    rw [hx] at hma hmb
    simp only [List.mem_singleton] at hma hmb
    exact hab (hma.trans hmb.symm)

/-- C8 witness: two CMIP-style member keys with three components each and a
three-element template produce the expected table row entries, and two
member keys with different component counts make the verifier raise. -/
theorem member_mapping_table_correct_witness :
    (∃ t, build_member_mapping_table
        ["ACCESS-CM2.r1i1p1f1.gn".toList, "ACCESS-CM2.r2i1p1f1.gn".toList]
        ["source_id".toList, "member_id".toList, "grid_label".toList] = .ok t ∧
      t.index = ["ACCESS-CM2.r1i1p1f1.gn".toList, "ACCESS-CM2.r2i1p1f1.gn".toList] ∧
      t.columns = ["source_id".toList, "member_id".toList, "grid_label".toList] ∧
      ∀ i j, i < 2 → j < 3 →
        (t.rows.getD i []).getD j none =
          some ((splitOnDot ((["ACCESS-CM2.r1i1p1f1.gn".toList,
            "ACCESS-CM2.r2i1p1f1.gn".toList] : List PyStr).getD i [])).getD j [])) ∧
    verify_member_keys ["a.b".toList, "c".toList] = .error .valueError := by
  have H := member_mapping_table_correct
    ["ACCESS-CM2.r1i1p1f1.gn".toList, "ACCESS-CM2.r2i1p1f1.gn".toList]
    ["source_id".toList, "member_id".toList, "grid_label".toList] 3
    (by decide) (by decide) (by decide)
  exact ⟨H.1, H.2 ["a.b".toList, "c".toList] "a.b".toList "c".toList
    (by decide) (by decide) (by decide)⟩

end MyCodeBase
